import Mathlib

/-!
Shallow embedding of the IFEM assembly/recovery/time-integration core.

The definitions below translate, function by function, the C++ sources
`src/ASM/NewmarkMats.C`, `src/SIM/NewmarkNLSIM.C` and
`src/ASM/LR/ASMu3Drecovery.C`.  Machine reals are modelled by `ℚ`;
vectors by `List ℚ`; dense/sparse matrices by functions `ℕ → ℕ → ℚ`
(1-based indices, as in the C++ matrix classes).  External collaborators
(the LR-spline geometry kernel, the linear-algebra solve, Gauss tables,
the integrand) are abstract data carried in a context structure, exactly
as the code consumes them through virtual/library calls.
-/

namespace IFEM

/-- Vectors (utl::vector<double>) are lists of rationals. -/
abbrev Vec := List ℚ

/-- `v.multiply(c)` / `operator*=`: scale every entry. -/
def vecScale (c : ℚ) (v : Vec) : Vec := v.map (fun q => c * q)

/-- `this->add(x,c)`: `this += c*x`, entrywise over common length. -/
def vecAdd (v x : Vec) (c : ℚ) : Vec := List.zipWith (fun a b => a + c * b) v x

/-- `v.fill(c)`: overwrite every entry with `c`, keeping the size. -/
def vecFill (v : Vec) (c : ℚ) : Vec := v.map (fun _ => c)

/-- Dense matrix viewed as an entry function (1-based indices). -/
abbrev MatF := ℕ → ℕ → ℚ

/-- Scale all entries of a matrix (`Matrix::multiply`). -/
def matScale (c : ℚ) (A : MatF) : MatF := fun i j => c * A i j

/-- `N.add(B,c)`: `N += c*B` entrywise. -/
def matAddScaled (A B : MatF) (c : ℚ) : MatF := fun i j => A i j + c * B i j

/-!  ## NewmarkMats (src/ASM/NewmarkMats.C)  -/

/-- Element-matrix set of `NewmarkMats`: the integration constants set up
by the constructor together with the stored mass matrix `A[1]` and
stiffness matrix `A[2]`. -/
structure NewmarkMats where
  alpha1 : ℚ
  alpha2 : ℚ
  alpha_m : ℚ
  alpha_f : ℚ
  beta : ℚ
  gamma : ℚ
  slvDisp : Bool
  h : ℚ
  M : MatF
  K : MatF

/-- The `NewmarkMats` constructor (lines 18-40 of NewmarkMats.C):
generalized-alpha mode derives `beta`/`gamma` from `alpha = c - |b|`,
plain Newmark mode takes `beta = |b|`, `gamma = c`; in both modes
displacement increments are primary unknowns iff `b < 0`. -/
def NewmarkMats.make (a1 a2 b c : ℚ) (generalizedAlpha : Bool) (h : ℚ)
    (M K : MatF) : NewmarkMats :=
  if generalizedAlpha then
    { alpha1 := a1, alpha2 := a2, alpha_m := |b|, alpha_f := c,
      beta := 1/4 * (1 - (c - |b|)) * (1 - (c - |b|)),
      gamma := 1/2 - (c - |b|),
      slvDisp := decide (b < 0), h := h, M := M, K := K }
  else
    { alpha1 := a1, alpha2 := a2, alpha_m := 1, alpha_f := 1,
      beta := |b|, gamma := c,
      slvDisp := decide (b < 0), h := h, M := M, K := K }

/-- `NewmarkMats::getNewtonMatrix` (lines 43-58): `N = A[1]`, then
`N.multiply(alpha_m + alpha_f*alpha1*gamma*h)`, then
`N.add(A[2], alpha_f*(alpha2*gamma + beta*h)*h)`, and finally
`N.multiply(1/(beta*h*h))` when `slvDisp`. -/
def NewmarkMats.getNewtonMatrix (em : NewmarkMats) : MatF :=
  let N := matScale (em.alpha_m + em.alpha_f * em.alpha1 * em.gamma * em.h) em.M
  let N := matAddScaled N em.K (em.alpha_f * (em.alpha2 * em.gamma + em.beta * em.h) * em.h)
  if em.slvDisp then matScale (1 / (em.beta * em.h * em.h)) N else N

/-!  ## NewmarkNLSIM (src/SIM/NewmarkNLSIM.C)  -/

/-- Mutable state of the `NewmarkNLSIM` driver: the Newmark parameters,
the solution history (displacements first, then the velocity and the
acceleration vector at the end), the incremental displacement and the
predicted velocity/acceleration buffers, and the cached inertia force. -/
structure NewmarkNLSIM where
  beta : ℚ
  gamma : ℚ
  solution : List Vec
  incDis : Vec
  predVel : Vec
  predAcc : Vec
  finert : Option Vec

/-- The sequential copy loop of `NewmarkNLSIM::advanceStep`
(lines 76-77): for `n` from the start value down to `1`,
`solution[n] = solution[n-1]`. -/
def copyDown (sol : List Vec) : ℕ → List Vec
  | 0 => sol
  | n+1 => copyDown (sol.set (n+1) (sol.getD n [])) n

/-- `NewmarkNLSIM::advanceStep` (lines 73-80); `incResult` stands for the
value of `param.increment()` supplied by the `TimeStep` collaborator. -/
def NewmarkNLSIM.advanceStep (updateTime incResult : Bool)
    (st : NewmarkNLSIM) : Bool × NewmarkNLSIM :=
  (if updateTime then incResult else true,
   { st with solution := copyDown st.solution (st.solution.length - 3) })

/-- `NewmarkNLSIM::predictStep` (lines 90-120). -/
def NewmarkNLSIM.predictStep (dt : ℚ) (st : NewmarkNLSIM) :
    Bool × NewmarkNLSIM :=
  if st.solution.length < 3 then (false, st)
  else
    let iA := st.solution.length - 1
    let iV := st.solution.length - 2
    let pV := vecAdd (vecScale (st.gamma / st.beta - 1) (st.solution.getD iV []))
                     (st.solution.getD iA []) ((1/2 * st.gamma / st.beta - 1) * dt)
    let pA := vecAdd (vecScale (1/2 / st.beta - 1) (st.solution.getD iA []))
                     (st.solution.getD iV []) (1 / (st.beta * dt))
    (true,
     { st with solution := (st.solution.set iV pV).set iA pA,
               incDis := vecFill st.incDis 0,
               predVel := vecScale (-1) pV,
               predAcc := vecScale (-1) pA })

/-- `NewmarkNLSIM::correctStep` (lines 123-160); `rhsVec` stands for
`model.getRHSvector(1,true)` and `updateConfig` for
`model.updateConfiguration`. -/
def NewmarkNLSIM.correctStep (dt : ℚ) (linsol : Vec)
    (updateConfig : Vec → Bool) (rhsVec : Option Vec) (converged : Bool)
    (st : NewmarkNLSIM) : Bool × NewmarkNLSIM :=
  if st.solution.length < 3 then (false, st)
  else
    let iA := st.solution.length - 1
    let iV := st.solution.length - 2
    let incDis := vecAdd st.incDis linsol 1
    let solD := vecAdd (st.solution.getD 0 []) linsol 1
    let solV := vecAdd st.predVel incDis (st.gamma / (st.beta * dt))
    let solA := vecAdd st.predAcc incDis (1 / (st.beta * dt * dt))
    (updateConfig solD,
     { st with solution := ((st.solution.set 0 solD).set iV solV).set iA solA,
               incDis := incDis,
               finert := if converged then rhsVec else st.finert })

/-!  ### List helper lemmas  -/

theorem getD_set_eq {α : Type} (d : α) :
    ∀ (l : List α) (i : ℕ) (v : α), i < l.length → (l.set i v).getD i d = v := by
  intro l
  induction l with
  | nil => intro i v h; simp at h
  | cons x xs ih =>
    intro i v h
    cases i with
    | zero => simp
    | succ n =>
      simp only [List.set, List.getD, List.get?]
      exact ih n v (by simpa using h)

theorem getD_set_ne {α : Type} (d : α) :
    ∀ (l : List α) (i j : ℕ) (v : α), i ≠ j → (l.set i v).getD j d = l.getD j d := by
  intro l
  induction l with
  | nil => intro i j v _; simp
  | cons x xs ih =>
    intro i j v hij
    cases i with
    | zero =>
      cases j with
      | zero => exact absurd rfl hij
      | succ m => simp [List.set, List.getD]
    | succ n =>
      cases j with
      | zero => simp [List.set, List.getD]
      | succ m =>
        simp only [List.set, List.getD, List.get?]
        exact ih n m v (fun h => hij (by rw [h]))

theorem copyDown_length : ∀ (k : ℕ) (sol : List Vec),
    (copyDown sol k).length = sol.length := by
  intro k
  induction k with
  | zero => intro sol; rfl
  | succ n ih => intro sol; rw [copyDown, ih, List.length_set]

theorem copyDown_getD : ∀ (k : ℕ) (sol : List Vec), k < sol.length → ∀ i,
    (copyDown sol k).getD i [] =
      if 1 ≤ i ∧ i ≤ k then sol.getD (i-1) [] else sol.getD i [] := by
  intro k
  induction k with
  | zero =>
    intro sol _ i
    have h0 : ¬ (1 ≤ i ∧ i ≤ 0) := by omega
    rw [copyDown, if_neg h0]
  | succ n ih =>
    intro sol hk i
    have hlen : (sol.set (n+1) (sol.getD n [])).length = sol.length :=
      List.length_set ..
    have hrec := ih (sol.set (n+1) (sol.getD n [])) (by rw [hlen]; omega) i
    rw [copyDown, hrec]
    by_cases h1 : 1 ≤ i ∧ i ≤ n
    · have hneq : n + 1 ≠ i - 1 := by omega
      rw [if_pos h1, if_pos (show 1 ≤ i ∧ i ≤ n + 1 by omega),
          getD_set_ne _ _ _ _ _ hneq]
    · by_cases h2 : i = n + 1
      · subst h2
        rw [if_neg h1, if_pos (show 1 ≤ n + 1 ∧ n + 1 ≤ n + 1 by omega),
            getD_set_eq _ _ _ _ (by omega)]
        simp
      · rw [if_neg h1, if_neg (show ¬ (1 ≤ i ∧ i ≤ n + 1) by omega),
            getD_set_ne _ _ _ _ _ (fun h => h2 (by omega))]

theorem vecAdd_scale_getD (c c' : ℚ) :
    ∀ (v a : Vec) (i : ℕ), i < v.length → i < a.length →
      (vecAdd (vecScale c v) a c').getD i 0 = c * v.getD i 0 + c' * a.getD i 0 := by
  intro v
  induction v with
  | nil => intro a i h _; simp at h
  | cons x xs ih =>
    intro a i hv ha
    cases a with
    | nil => simp at ha
    | cons y ys =>
      cases i with
      | zero => simp [vecAdd, vecScale, List.getD]
      | succ n =>
        simp only [vecAdd, vecScale, List.map, List.zipWith, List.getD, List.get?]
        exact ih ys n (by simpa using hv) (by simpa using ha)

theorem vecAdd_scale_zero (c c' : ℚ) :
    ∀ (v a : Vec), (∀ q ∈ v, q = 0) → (∀ q ∈ a, q = 0) →
      ∀ q ∈ vecAdd (vecScale c v) a c', q = 0 := by
  intro v
  induction v with
  | nil => intro a _ _ q hq; simp [vecAdd, vecScale] at hq
  | cons x xs ih =>
    intro a hv ha q hq
    cases a with
    | nil => simp [vecAdd, vecScale] at hq
    | cons y ys =>
      simp only [vecAdd, vecScale, List.map, List.zipWith, List.mem_cons] at hq
      rcases hq with h | h
      · have hx : x = 0 := hv x (List.mem_cons_self ..)
        have hy : y = 0 := ha y (List.mem_cons_self ..)
        rw [h, hx, hy]; ring
      · exact ih ys (fun q hq => hv q (List.mem_cons_of_mem _ hq))
          (fun q hq => ha q (List.mem_cons_of_mem _ hq)) q h

theorem vecScale_zero (c : ℚ) (v : Vec) (hv : ∀ q ∈ v, q = 0) :
    ∀ q ∈ vecScale c v, q = 0 := by
  intro q hq
  simp only [vecScale, List.mem_map] at hq
  obtain ⟨x, hx, hq⟩ := hq
  rw [← hq, hv x hx]; ring

/-!  ### Claims about the Newmark time integration  -/

/-- Claim C2: `NewmarkMats::getNewtonMatrix` returns
`N = (alpha_m + alpha_f*alpha1*gamma*h) * M + alpha_f*(alpha2*gamma + beta*h)*h * K`
for the stored mass matrix `M` and stiffness matrix `K`, additionally
multiplied by `1/(beta*h*h)` exactly when the constructor argument
`b` was negative (displacement increments as primary unknowns). -/
theorem claim_C2 (a1 a2 b c : ℚ) (genAlpha : Bool) (h : ℚ) (M K : MatF)
    (i j : ℕ) :
    (NewmarkMats.make a1 a2 b c genAlpha h M K).getNewtonMatrix i j =
      (let em := NewmarkMats.make a1 a2 b c genAlpha h M K
       let N := (em.alpha_m + em.alpha_f * em.alpha1 * em.gamma * em.h) * M i j
                + em.alpha_f * (em.alpha2 * em.gamma + em.beta * em.h) * em.h * K i j
       if b < 0 then 1 / (em.beta * em.h * em.h) * N else N) := by
  by_cases hb : b < 0 <;>
    cases genAlpha <;>
      simp [NewmarkMats.make, NewmarkMats.getNewtonMatrix, matScale, matAddScaled, hb]

/-- Claim C4: `NewmarkNLSIM::predictStep` computes the predicted velocity
as `(gamma/beta - 1)*v + (0.5*gamma/beta - 1)*dt*a` and the predicted
acceleration as `(0.5/beta - 1)*a + v/(beta*dt)` from the stored velocity
`v` and acceleration `a`; in particular, for any step size, a history with
zero velocity and acceleration vectors (default `beta = 0.3025`,
`gamma = 0.6`) yields zero predicted velocity and acceleration. -/
theorem claim_C4 (dt : ℚ) (st : NewmarkNLSIM) (h3 : 3 ≤ st.solution.length) :
    (st.predictStep dt).1 = true ∧
    (∀ i, i < (st.solution.getD (st.solution.length - 2) []).length →
          i < (st.solution.getD (st.solution.length - 1) []).length →
      ((st.predictStep dt).2.solution.getD (st.solution.length - 2) []).getD i 0 =
        (st.gamma / st.beta - 1) *
            (st.solution.getD (st.solution.length - 2) []).getD i 0 +
        ((1/2 * st.gamma / st.beta - 1) * dt) *
            (st.solution.getD (st.solution.length - 1) []).getD i 0 ∧
      ((st.predictStep dt).2.solution.getD (st.solution.length - 1) []).getD i 0 =
        (1/2 / st.beta - 1) *
            (st.solution.getD (st.solution.length - 1) []).getD i 0 +
        (1 / (st.beta * dt)) *
            (st.solution.getD (st.solution.length - 2) []).getD i 0) ∧
    (st.beta = 3025/10000 → st.gamma = 3/5 →
      (∀ q ∈ st.solution.getD (st.solution.length - 2) [], q = 0) →
      (∀ q ∈ st.solution.getD (st.solution.length - 1) [], q = 0) →
      (∀ q ∈ (st.predictStep dt).2.solution.getD (st.solution.length - 2) [], q = 0) ∧
      (∀ q ∈ (st.predictStep dt).2.solution.getD (st.solution.length - 1) [], q = 0) ∧
      (∀ q ∈ (st.predictStep dt).2.predVel, q = 0) ∧
      (∀ q ∈ (st.predictStep dt).2.predAcc, q = 0)) := by
  have hnot : ¬ st.solution.length < 3 := by omega
  have hVA : st.solution.length - 2 ≠ st.solution.length - 1 := by omega
  have hVlt : st.solution.length - 2 < st.solution.length := by omega
  have hAlt : st.solution.length - 1 < st.solution.length := by omega
  simp only [NewmarkNLSIM.predictStep, hnot, if_false]
  have hgetV :
      ((st.solution.set (st.solution.length - 2)
          (vecAdd (vecScale (st.gamma / st.beta - 1)
            (st.solution.getD (st.solution.length - 2) []))
            (st.solution.getD (st.solution.length - 1) [])
            ((1/2 * st.gamma / st.beta - 1) * dt))).set (st.solution.length - 1)
          (vecAdd (vecScale (1/2 / st.beta - 1)
            (st.solution.getD (st.solution.length - 1) []))
            (st.solution.getD (st.solution.length - 2) [])
            (1 / (st.beta * dt)))).getD (st.solution.length - 2) [] =
        vecAdd (vecScale (st.gamma / st.beta - 1)
          (st.solution.getD (st.solution.length - 2) []))
          (st.solution.getD (st.solution.length - 1) [])
          ((1/2 * st.gamma / st.beta - 1) * dt) := by
    rw [getD_set_ne _ _ _ _ _ (fun hh => hVA hh.symm), getD_set_eq _ _ _ _ hVlt]
  have hgetA :
      ((st.solution.set (st.solution.length - 2)
          (vecAdd (vecScale (st.gamma / st.beta - 1)
            (st.solution.getD (st.solution.length - 2) []))
            (st.solution.getD (st.solution.length - 1) [])
            ((1/2 * st.gamma / st.beta - 1) * dt))).set (st.solution.length - 1)
          (vecAdd (vecScale (1/2 / st.beta - 1)
            (st.solution.getD (st.solution.length - 1) []))
            (st.solution.getD (st.solution.length - 2) [])
            (1 / (st.beta * dt)))).getD (st.solution.length - 1) [] =
        vecAdd (vecScale (1/2 / st.beta - 1)
          (st.solution.getD (st.solution.length - 1) []))
          (st.solution.getD (st.solution.length - 2) [])
          (1 / (st.beta * dt)) := by
    rw [getD_set_eq _ _ _ _ (by rw [List.length_set]; omega)]
  refine ⟨by trivial, ?_, ?_⟩
  · intro i hiv hia
    constructor
    · rw [hgetV]; exact vecAdd_scale_getD _ _ _ _ i (by simpa [vecScale] using hiv) hia
    · rw [hgetA]; exact vecAdd_scale_getD _ _ _ _ i (by simpa [vecScale] using hia) hiv
  · intro _ _ hv ha
    refine ⟨?_, ?_, ?_, ?_⟩
    · rw [hgetV]; exact vecAdd_scale_zero _ _ _ _ hv ha
    · rw [hgetA]; exact vecAdd_scale_zero _ _ _ _ ha hv
    · exact vecScale_zero _ _ (vecAdd_scale_zero _ _ _ _ hv ha)
    · exact vecScale_zero _ _ (vecAdd_scale_zero _ _ _ _ ha hv)

/-- Two-step zero history used to witness claim C4. -/
def stC4 : NewmarkNLSIM :=
  { beta := 3025/10000, gamma := 3/5,
    solution := [[0,0],[0,0],[0,0]],
    incDis := [1,1], predVel := [2,2], predAcc := [3,3], finert := none }

theorem claim_C4_witness :
    (stC4.predictStep (1/10)).1 = true ∧
    (∀ q ∈ (stC4.predictStep (1/10)).2.predVel, q = 0) ∧
    (∀ q ∈ (stC4.predictStep (1/10)).2.predAcc, q = 0) :=
  ⟨(claim_C4 (1/10) stC4 (by decide)).1,
   ((claim_C4 (1/10) stC4 (by decide)).2.2 rfl rfl (by decide) (by decide)).2.2.1,
   ((claim_C4 (1/10) stC4 (by decide)).2.2 rfl rfl (by decide) (by decide)).2.2.2⟩

/-- Claim C9: `NewmarkNLSIM::advanceStep` shifts only the displacement
part of the solution history (`solution[n] = solution[n-1]` for `n` from
`size-3` down to `1`), leaves `solution[0]` and the trailing velocity and
acceleration vectors unchanged, and returns `param.increment()` when
`updateTime` is true and `true` otherwise. -/
theorem claim_C9 (updateTime incResult : Bool) (st : NewmarkNLSIM) (i : ℕ)
    (hi : i < st.solution.length) :
    ((st.advanceStep updateTime incResult).2.solution.getD i [] =
       if 1 ≤ i ∧ i + 3 ≤ st.solution.length then st.solution.getD (i-1) []
       else st.solution.getD i []) ∧
    (st.advanceStep updateTime incResult).1 =
      (if updateTime then incResult else true) ∧
    (st.advanceStep updateTime incResult).2.solution.length = st.solution.length ∧
    (st.advanceStep updateTime incResult).2.incDis = st.incDis ∧
    (st.advanceStep updateTime incResult).2.predVel = st.predVel ∧
    (st.advanceStep updateTime incResult).2.predAcc = st.predAcc := by
  refine ⟨?_, rfl, copyDown_length .., rfl, rfl, rfl⟩
  show (copyDown st.solution (st.solution.length - 3)).getD i [] = _
  rw [copyDown_getD _ _ (by omega) i]
  by_cases hc : 1 ≤ i ∧ i + 3 ≤ st.solution.length
  · rw [if_pos (show 1 ≤ i ∧ i ≤ st.solution.length - 3 by omega), if_pos hc]
  · rw [if_neg (show ¬ (1 ≤ i ∧ i ≤ st.solution.length - 3) by omega), if_neg hc]

/-- Four-vector history used to witness claim C9. -/
def stC9 : NewmarkNLSIM :=
  { beta := 1/4, gamma := 1/2, solution := [[1],[2],[3],[4]],
    incDis := [], predVel := [], predAcc := [], finert := none }

theorem claim_C9_witness :
    (stC9.advanceStep true false).2.solution.getD 1 [] = stC9.solution.getD 0 [] := by
  have h := (claim_C9 true false stC9 1 (by decide)).1
  rw [h, if_pos (by decide)]

/-- Claim C10: with fewer than three vectors in the solution history both
`NewmarkNLSIM::predictStep` and `NewmarkNLSIM::correctStep` return false
and leave the whole state (solution vectors, incremental displacement,
predicted velocity/acceleration) untouched. -/
theorem claim_C10 (dt : ℚ) (linsol : Vec) (updateConfig : Vec → Bool)
    (rhsVec : Option Vec) (converged : Bool) (st : NewmarkNLSIM)
    (hlen : st.solution.length < 3) :
    st.predictStep dt = (false, st) ∧
    st.correctStep dt linsol updateConfig rhsVec converged = (false, st) := by
  constructor <;>
    simp [NewmarkNLSIM.predictStep, NewmarkNLSIM.correctStep, hlen]

/-- Two-vector history used to witness claim C10. -/
def stC10 : NewmarkNLSIM :=
  { beta := 3025/10000, gamma := 3/5, solution := [[1],[2]],
    incDis := [5], predVel := [6], predAcc := [7], finert := none }

theorem claim_C10_witness :
    stC10.predictStep 1 = (false, stC10) ∧
    stC10.correctStep 1 [] (fun _ => true) none true = (false, stC10) :=
  claim_C10 1 [] (fun _ => true) none true stC10 (by decide)

/-!  ## ASMu3D recovery (src/ASM/LR/ASMu3Drecovery.C)  -/

/-- One LR basis function as consumed by the recovery code: its Greville
parameter per direction (`getGrevilleParameter()[dir]`), the ids of the
elements of its own support (`supportedElementBegin`/`End`) and of its
extended support (`getExtendedSupport`, the union of the supports of all
overlapping basis functions). -/
structure Basisfunction where
  greville : ℕ → ℚ
  support : List ℕ
  extendedSupport : List ℕ

/-- Default basis function for `List.getD`. -/
def dfltBasis : Basisfunction := ⟨fun _ => 0, [], []⟩

/-- The unstructured patch with its external collaborators (LR-spline
geometry kernel, Gauss tables, integrand evaluation, dense and sparse
linear solvers), each modelled abstractly at exactly the call interface
the recovery code uses. -/
structure ASMu3D where
  rational : Bool
  order : ℕ → ℕ
  basisfunctions : List Basisfunction
  elemSupport : ℕ → List ℕ
  getCoordOk : ℕ → Bool
  gaussPointParameters : ℕ → ℕ → ℕ → List ℚ
  point : ℚ → ℚ → ℚ → ℚ × ℚ × ℚ
  evalSolution : List (ℚ × ℚ × ℚ) → Option (ℕ → ℕ → ℚ)
  derivativeOrder : ℕ
  noFields : ℕ
  denseSolve : ℕ → ℕ → MatF → MatF → Option MatF
  sparseSolve : ℕ → MatF → (ℕ → ℚ) → Option (ℕ → ℚ)
  getElementContaining : ℚ → ℚ → ℚ → ℕ
  computeBasis : ℚ → ℚ → ℚ → ℕ → List ℚ

/-- `lrspline->nBasisFunctions()`. -/
def ASMu3D.nBasisFunctions (p : ASMu3D) : ℕ := p.basisfunctions.length

/-- `ASMu3D::getGrevilleParameters` (lines 28-38): fails for a missing
spline or a direction outside 0..2, otherwise pushes the `dir`-th
Greville coordinate of every basis function in traversal order. -/
def getGrevilleParameters (lr : Option ASMu3D) (dir : ℤ) : Option (List ℚ) :=
  match lr with
  | none => none
  | some p =>
    if dir < 0 ∨ 2 < dir then none
    else some (p.basisfunctions.map (fun b => b.greville dir.toNat))

/-- Concatenation of the images of a list, innermost loop last. -/
def catMaps {α β : Type} (f : α → List β) : List α → List β
  | [] => []
  | x :: xs => f x ++ catMaps f xs

/-- `expandTensorGrid` (lines 53-67): tensor parametrization points in
`k`-outer / `i`-inner order. -/
def expandTensorGrid (g0 g1 g2 : List ℚ) : List (ℚ × ℚ × ℚ) :=
  catMaps (fun z => catMaps (fun y => g0.map (fun x => (x, y, z))) g1) g2

/-- `evalMonomials` (lines 209-223): all monomials `x^i*y^j*z^k` with
`i < p1`, `j < p2`, `k < p3`, `i` running fastest. -/
def evalMonomials (p1 p2 p3 : ℕ) (x y z : ℚ) : List ℚ :=
  catMaps (fun k => catMaps (fun j =>
    (List.range p1).map (fun i => x^i * y^j * z^k)) (List.range p2))
    (List.range p3)

/-- The double loop `A(ii,jj) += P(ii)*P(jj)` over `1..nPol` (lines 347-351). -/
def accumA (nPol : ℕ) (A : MatF) (P : List ℚ) : MatF :=
  fun i j =>
    if 1 ≤ i ∧ i ≤ nPol ∧ 1 ≤ j ∧ j ≤ nPol
    then A i j + P.getD (i-1) 0 * P.getD (j-1) 0 else A i j

/-- The loop `B(ii,jj) += P(ii)*sField(jj,ig)` over `1..nPol` × `1..nCmp`
(lines 353-355). -/
def accumB (nPol nCmp : ℕ) (B : MatF) (P : List ℚ) (sField : MatF) (ig : ℕ) :
    MatF :=
  fun i j =>
    if 1 ≤ i ∧ i ≤ nPol ∧ 1 ≤ j ∧ j ≤ nCmp
    then B i j + P.getD (i-1) 0 * sField j ig else B i j

/-- Number of reduced-order Gauss points per direction, `order(d) - m`. -/
def scrNg (p : ASMu3D) (d : ℕ) : ℕ := p.order d - p.derivativeOrder

/-- Patch size of the polynomial expansion, `order(d) - m + 1`. -/
def scrN (p : ASMu3D) (d : ℕ) : ℕ := p.order d - p.derivativeOrder + 1

/-- Number of terms `nPol = n1*n2*n3` of the local polynomial expansion. -/
def scrNPol (p : ASMu3D) : ℕ := scrN p 0 * scrN p 1 * scrN p 2

/-- The support-selection step of `ASMu3D::scRecovery` (lines 272-298):
the commented-out heuristic `nel*ng1*ng2*ng3 < nPol` was replaced by
`if (true)`, so the extended-support branch is what the code executes. -/
def scrElementsForBasis (b : Basisfunction) : List ℕ :=
  if true then b.extendedSupport else b.support

/-- Gauss-point index triples `(i,j,k)` in `k`-outer / `i`-inner order. -/
def gaussTriples (ng1 ng2 ng3 : ℕ) : List (ℕ × ℕ × ℕ) :=
  catMaps (fun k => catMaps (fun j =>
    (List.range ng1).map (fun i => (i, j, k))) (List.range ng2))
    (List.range ng3)

/-- Contribution of one support element to the local projection matrices
of `scRecovery` (lines 309-358): evaluate the secondary solution at the
element's reduced Gauss points, then accumulate `A += P^t*P` and
`B += P^t*sigma` with the monomials centred at the Greville point `G`. -/
def scrElementAssemble (p : ASMu3D) (G : ℚ × ℚ × ℚ) (AB : MatF × MatF)
    (elid : ℕ) : Option (MatF × MatF) :=
  let iel := elid + 1
  let g0 := p.gaussPointParameters 0 (scrNg p 0) iel
  let g1 := p.gaussPointParameters 1 (scrNg p 1) iel
  let g2 := p.gaussPointParameters 2 (scrNg p 2) iel
  match p.evalSolution (expandTensorGrid g0 g1 g2) with
  | none => none
  | some sField =>
    some (((gaussTriples (scrNg p 0) (scrNg p 1) (scrNg p 2)).foldl
      (fun st t =>
        let X := p.point (g0.getD t.1 0) (g1.getD t.2.1 0) (g2.getD t.2.2 0)
        let P := evalMonomials (scrN p 0) (scrN p 1) (scrN p 2)
                   (X.1 - G.1) (X.2.1 - G.2.1) (X.2.2 - G.2.2)
        ((accumA (scrNPol p) st.1.1 P,
          accumB (scrNPol p) p.noFields st.1.2 P sField st.2), st.2 + 1))
      (AB, 1)).1)

/-- Local least-squares assembly for one basis function of `scRecovery`:
zero-initialized `A` and `B` accumulated over the selected support
elements, with the Greville point `G` taken at index `ip` of the
Greville-parameter arrays. -/
def scrStepAssemble (p : ASMu3D) (g0 g1 g2 : List ℚ) (b : Basisfunction)
    (ip : ℕ) : Option (MatF × MatF) :=
  (scrElementsForBasis b).foldlM
    (scrElementAssemble p (p.point (g0.getD ip 0) (g1.getD ip 0) (g2.getD ip 0)))
    (fun _ _ => 0, fun _ _ => 0)

/-- The Greville-point loop of `scRecovery` (lines 261-382): assemble and
solve one local system per basis function, recording the first row of the
solved right-hand side as the projected values at that Greville point. -/
def scrLoop (p : ASMu3D) (g0 g1 g2 : List ℚ) :
    List Basisfunction → ℕ → Option (List (List ℚ))
  | [], _ => some []
  | b :: rest, ip =>
    (scrStepAssemble p g0 g1 g2 b ip).bind (fun AB =>
      (p.denseSolve (scrNPol p) p.noFields AB.1 AB.2).bind (fun sol =>
        (scrLoop p g0 g1 g2 rest (ip+1)).map (fun tail =>
          ((List.range p.noFields).map (fun l => sol 1 (l+1))) :: tail)))

/-- Sample-value matrix (`utl::matrix`), 1-based entries. -/
structure MatQ where
  rows : ℕ
  cols : ℕ
  entry : ℕ → ℕ → ℚ

/-- The matrix `sValues` of `scRecovery`: column `ip` holds the projected
component values at Greville point `ip`. -/
def matOfCols (nCmp : ℕ) (cols : List (List ℚ)) : MatQ :=
  ⟨nCmp, cols.length, fun r c => (cols.getD (c-1) []).getD (r-1) 0⟩

/-- The interpolation matrix of `ASMu3D::regularInterpolation`
(lines 423-432): row `i` evaluates all basis functions supported on the
element containing sample point `i`; absent entries stay zero (sparse). -/
def riA (p : ASMu3D) (upar vpar wpar : List ℚ) : MatF :=
  fun i j =>
    if 1 ≤ i ∧ i ≤ p.nBasisFunctions then
      let u := upar.getD (i-1) 0
      let v := vpar.getD (i-1) 0
      let w := wpar.getD (i-1) 0
      let iel := p.getElementContaining u v w
      match (p.elemSupport iel).findIdx? (fun fid => fid + 1 = j) with
      | some k => (p.computeBasis u v w iel).getD k 0
      | none => 0
    else 0

/-- The right-hand-side vector of `regularInterpolation`: the transposed
sample matrix flattened column-major (`StdVector B(B2)`). -/
def riB (p : ASMu3D) (points : MatQ) : ℕ → ℚ :=
  fun q =>
    if 1 ≤ q ∧ q ≤ p.nBasisFunctions * points.rows
    then points.entry ((q-1) / p.nBasisFunctions + 1)
                      ((q-1) % p.nBasisFunctions + 1)
    else 0

/-- `ASMu3D::regularInterpolation` (lines 391-451): rejects rational LR
splines and mismatching input sizes, assembles the global interpolation
system, solves it, and returns the interleaved control-point values. -/
def regularInterpolation (p : ASMu3D) (upar vpar wpar : List ℚ)
    (points : MatQ) : Option (List ℚ) :=
  if p.rational then none
  else if ¬ (upar.length = p.nBasisFunctions ∧
             vpar.length = p.nBasisFunctions ∧
             wpar.length = p.nBasisFunctions ∧
             points.cols = p.nBasisFunctions) then none
  else
    (p.sparseSolve p.nBasisFunctions (riA p upar vpar wpar) (riB p points)).map
      (fun sol => catMaps (fun i => (List.range points.rows).map
        (fun j => sol (1 + j * points.cols + i)))
        (List.range p.nBasisFunctions))

/-- `ASMu3D::scRecovery` (lines 226-388): reduced Gauss rule checks,
Greville parameters, the per-basis-function local least-squares loop, and
the final `regularInterpolation` back-substitution. -/
def scRecovery (p : ASMu3D) : Option (List ℚ) :=
  if p.getCoordOk (scrNg p 0) && p.getCoordOk (scrNg p 1) &&
     p.getCoordOk (scrNg p 2) then
    (getGrevilleParameters (some p) 0).bind (fun g0 =>
      (getGrevilleParameters (some p) 1).bind (fun g1 =>
        (getGrevilleParameters (some p) 2).bind (fun g2 =>
          (scrLoop p g0 g1 g2 p.basisfunctions 0).bind (fun sValues =>
            regularInterpolation p g0 g1 g2 (matOfCols p.noFields sValues)))))
  else none

/-- Replace every basis function's own-support list, leaving everything
else of the patch unchanged. -/
def setSupports (f : Basisfunction → List ℕ) (p : ASMu3D) : ASMu3D :=
  { p with basisfunctions :=
      p.basisfunctions.map (fun b => { b with support := f b }) }

/-- The local assembly `scRecovery` performs for the `i`-th basis function
(processing index `ip = i`, Greville arrays as produced by
`getGrevilleParameters`). -/
def scrAssembleAt (p : ASMu3D) (i : ℕ) : Option (MatF × MatF) :=
  scrStepAssemble p
    (p.basisfunctions.map (fun b => b.greville 0))
    (p.basisfunctions.map (fun b => b.greville 1))
    (p.basisfunctions.map (fun b => b.greville 2))
    (p.basisfunctions.getD i dfltBasis) i

/-!  ### Claims about the recovery / projection engine  -/

/-- Modelled from the spec wording of claim C1: the support-selection rule
the claim ascribes to `scRecovery` — the fit uses the function's own
support unless that support provides fewer than `nPol` sample points
(`nel*ng1*ng2*ng3 < nPol`), and only then the extended support. -/
def specElementsForBasis (ng1 ng2 ng3 nPol : ℕ) (b : Basisfunction) : List ℕ :=
  if b.support.length * (ng1 * ng2 * ng3) < nPol then b.extendedSupport
  else b.support

/-- Basis function refuting claim C1: its own support (2 elements, 16
sample points at 2x2x2 Gauss points each) is ample for `nPol = 8`, yet
the code still iterates the extended support. -/
def bC1 : Basisfunction := ⟨fun _ => 0, [0, 1], [0, 1, 2]⟩

theorem claim_C1_counterexample :
    scrElementsForBasis bC1 ≠ specElementsForBasis 2 2 2 8 bC1 := by decide

/-- Claim C1 (amended): for every basis function the local least-squares
system of `scRecovery` is assembled over the extended support, never over
the function's own support list, regardless of its size. -/
theorem claim_C1 (p : ASMu3D) (g0 g1 g2 : List ℚ) (b : Basisfunction)
    (ip : ℕ) :
    scrElementsForBasis b = b.extendedSupport ∧
    scrStepAssemble p g0 g1 g2 b ip =
      b.extendedSupport.foldlM
        (scrElementAssemble p
          (p.point (g0.getD ip 0) (g1.getD ip 0) (g2.getD ip 0)))
        (fun _ _ => 0, fun _ _ => 0) :=
  ⟨rfl, rfl⟩

/-- Claim C5: `regularInterpolation` returns `nullptr` whenever any of the
three parameter arrays or the column count of the sample matrix differs
from `nBasisFunctions()`, or the LR spline is rational. -/
theorem claim_C5 (p : ASMu3D) (upar vpar wpar : List ℚ) (points : MatQ)
    (hfail : p.rational = true ∨ upar.length ≠ p.nBasisFunctions ∨
             vpar.length ≠ p.nBasisFunctions ∨
             wpar.length ≠ p.nBasisFunctions ∨
             points.cols ≠ p.nBasisFunctions) :
    regularInterpolation p upar vpar wpar points = none := by
  by_cases hr : p.rational = true
  · simp [regularInterpolation, hr]
  · have hns : ¬ (upar.length = p.nBasisFunctions ∧
        vpar.length = p.nBasisFunctions ∧
        wpar.length = p.nBasisFunctions ∧
        points.cols = p.nBasisFunctions) := by
      rcases hfail with h | h | h | h | h
      · exact absurd h hr
      all_goals tauto
    simp [regularInterpolation, hr, hns]

/-- Rational patch used to witness claim C5. -/
def pC5 : ASMu3D :=
  { rational := true, order := fun _ => 2, basisfunctions := [],
    elemSupport := fun _ => [], getCoordOk := fun _ => true,
    gaussPointParameters := fun _ _ _ => [],
    point := fun _ _ _ => (0, 0, 0),
    evalSolution := fun _ => some (fun _ _ => 0),
    derivativeOrder := 1, noFields := 1,
    denseSolve := fun _ _ _ B => some B,
    sparseSolve := fun _ _ B => some B,
    getElementContaining := fun _ _ _ => 0,
    computeBasis := fun _ _ _ _ => [] }

theorem claim_C5_witness :
    regularInterpolation pC5 [] [] [] ⟨1, 0, fun _ _ => 0⟩ = none :=
  claim_C5 pC5 [] [] [] ⟨1, 0, fun _ _ => 0⟩ (Or.inl rfl)

/-- One Gauss point of the continuous L2-projection loop of
`assembleL2matrices` (lines 161-198): the basis values, the value of
`utl::Jacobian`, the product of the Gauss weights, and the secondary
solution column at this point. -/
structure L2Point where
  phi : List ℚ
  jac : ℚ
  wgt : ℚ
  scol : ℕ → ℚ

/-- `A(i,j) += v` on a sparse accumulator. -/
def upd2 (A : MatF) (i j : ℕ) (v : ℚ) : MatF :=
  fun a b => if a = i ∧ b = j then A a b + v else A a b

/-- `B(i) += v` on a vector accumulator. -/
def upd1 (B : ℕ → ℚ) (i : ℕ) (v : ℚ) : ℕ → ℚ :=
  fun a => if a = i then B a + v else B a

/-- The body of the Gauss-point loop of `assembleL2matrices`
(lines 166-197): for continuous projection `dJw = dA*wg_i*wg_j*wg_k*J`
and a vanishing `dJw` skips the point (`continue`); otherwise the point
is scatter-added into `A` and `B` through the element node map `MNPC`. -/
def l2PointStep (continuous : Bool) (dA : ℚ) (mnpcEl : List ℤ)
    (nnod nCmp : ℕ) (AB : MatF × (ℕ → ℚ)) (pt : L2Point) :
    MatF × (ℕ → ℚ) :=
  let dJw : ℚ := if continuous then dA * pt.wgt * pt.jac else 1
  if continuous ∧ dJw = 0 then AB
  else
    (List.range pt.phi.length).foldl
      (fun st ii =>
        let inod := (mnpcEl.getD ii (-1) + 1).toNat
        ((List.range pt.phi.length).foldl
           (fun A jj => upd2 A inod ((mnpcEl.getD jj (-1) + 1).toNat)
              (pt.phi.getD ii 0 * pt.phi.getD jj 0 * dJw)) st.1,
         (List.range nCmp).foldl
           (fun B r => upd1 B (inod + r * nnod)
              (pt.phi.getD ii 0 * pt.scol (r + 1) * dJw)) st.2))
      AB

/-- Claim C7: in the continuous L2-projection assembly loop a Gauss point
whose Jacobian-scaled weight `dJw` is exactly zero contributes nothing:
the step leaves the accumulated `A` and `B` unchanged, and the loop over
the remaining Gauss points proceeds as if the point were absent. -/
theorem claim_C7 (dA : ℚ) (mnpcEl : List ℤ) (nnod nCmp : ℕ)
    (AB : MatF × (ℕ → ℚ)) (pt : L2Point) (l1 l2 : List L2Point)
    (hz : dA * pt.wgt * pt.jac = 0) :
    l2PointStep true dA mnpcEl nnod nCmp AB pt = AB ∧
    List.foldl (l2PointStep true dA mnpcEl nnod nCmp) AB (l1 ++ pt :: l2) =
      List.foldl (l2PointStep true dA mnpcEl nnod nCmp) AB (l1 ++ l2) := by
  have hstep : ∀ S, l2PointStep true dA mnpcEl nnod nCmp S pt = S := by
    intro S
    simp only [l2PointStep, if_true]
    rw [if_pos ⟨trivial, by simpa using hz⟩]
  refine ⟨hstep AB, ?_⟩
  rw [List.foldl_append, List.foldl_append, List.foldl_cons, hstep]

/-- Degenerate Gauss point (zero Jacobian) used to witness claim C7. -/
def ptC7 : L2Point := ⟨[1, 1], 0, 1, fun _ => 1⟩

theorem claim_C7_witness :
    l2PointStep true 1 [0, 1] 2 1 (fun _ _ => 0, fun _ => 0) ptC7 =
      (fun _ _ => 0, fun _ => 0) ∧
    List.foldl (l2PointStep true 1 [0, 1] 2 1) (fun _ _ => 0, fun _ => 0)
        ([] ++ ptC7 :: []) =
      List.foldl (l2PointStep true 1 [0, 1] 2 1) (fun _ _ => 0, fun _ => 0)
        ([] ++ []) :=
  claim_C7 1 [0, 1] 2 1 (fun _ _ => 0, fun _ => 0) ptC7 [] [] (by norm_num [ptC7])

/-- A 2x2 tensor-ordered LR patch (basis functions enumerated with the
first parameter direction running fastest, Greville points (0,0,0),
(1,0,0), (0,1,0), (1,1,0)); `getGrevilleParameters` then yields the
non-monotone first-direction array `[0, 1, 0, 1]`. -/
def pC8 : ASMu3D :=
  { rational := false, order := fun _ => 2,
    basisfunctions :=
      [⟨fun _ => 0, [0], [0]⟩,
       ⟨fun d => if d = 0 then 1 else 0, [0], [0]⟩,
       ⟨fun d => if d = 1 then 1 else 0, [0], [0]⟩,
       ⟨fun d => if d = 2 then 0 else 1, [0], [0]⟩],
    elemSupport := fun _ => [0, 1, 2, 3], getCoordOk := fun _ => true,
    gaussPointParameters := fun _ _ _ => [],
    point := fun u v w => (u, v, w),
    evalSolution := fun _ => some (fun _ _ => 0),
    derivativeOrder := 1, noFields := 1,
    denseSolve := fun _ _ _ B => some B,
    sparseSolve := fun _ _ B => some B,
    getElementContaining := fun _ _ _ => 0,
    computeBasis := fun _ _ _ _ => [1, 0, 0, 0] }

theorem claim_C8_counterexample :
    getGrevilleParameters (some pC8) 0 = some [0, 1, 0, 1] ∧
    ¬ List.Chain' (fun a b => a ≤ b) ([0, 1, 0, 1] : List ℚ) := by
  constructor
  · rfl
  · intro h
    exact absurd (List.Chain'.rel_head (h.tail)) (by norm_num)

/-- Claim C8 (amended): for a present spline and direction 0..2,
`getGrevilleParameters` succeeds and returns exactly `nBasisFunctions()`
values — the `dir`-th Greville coordinate of each basis function in
traversal order, with no monotonicity guarantee — and it fails for a
missing spline or a direction outside 0..2. -/
theorem claim_C8 (lr : Option ASMu3D) (dir : ℤ) :
    (∀ p : ASMu3D, lr = some p → 0 ≤ dir → dir ≤ 2 →
       getGrevilleParameters lr dir =
         some (p.basisfunctions.map (fun b => b.greville dir.toNat)) ∧
       ∀ l, getGrevilleParameters lr dir = some l →
             l.length = p.nBasisFunctions) ∧
    (lr = none ∨ dir < 0 ∨ 2 < dir → getGrevilleParameters lr dir = none) := by
  constructor
  · rintro p rfl h0 h2
    have hval : getGrevilleParameters (some p) dir =
        some (p.basisfunctions.map (fun b => b.greville dir.toNat)) := by
      simp only [getGrevilleParameters]
      rw [if_neg (show ¬ (dir < 0 ∨ 2 < dir) by omega)]
    refine ⟨hval, ?_⟩
    intro l hl
    rw [hval] at hl
    cases hl
    simp [ASMu3D.nBasisFunctions]
  · rintro (rfl | h | h)
    · rfl
    · cases lr with
      | none => rfl
      | some p =>
        simp only [getGrevilleParameters]
        rw [if_pos (Or.inl h)]
    · cases lr with
      | none => rfl
      | some p =>
        simp only [getGrevilleParameters]
        rw [if_pos (Or.inr h)]

theorem claim_C8_witness :
    getGrevilleParameters (some pC8) 1 =
      some (pC8.basisfunctions.map (fun b => b.greville 1)) ∧
    (pC8.basisfunctions.map (fun b => b.greville 1)).length =
      pC8.nBasisFunctions ∧
    getGrevilleParameters (some pC8) 3 = none ∧
    getGrevilleParameters (none : Option ASMu3D) 0 = none := by
  have h1 := (claim_C8 (some pC8) 1).1 pC8 rfl (by norm_num) (by norm_num)
  refine ⟨h1.1, h1.2 _ h1.1, ?_, ?_⟩
  · exact (claim_C8 (some pC8) 3).2 (Or.inr (Or.inr (by norm_num)))
  · exact (claim_C8 (none : Option ASMu3D) 0).2 (Or.inl rfl)

theorem getGreville_eval (p : ASMu3D) (d : ℤ) (h0 : 0 ≤ d) (h2 : d ≤ 2) :
    getGrevilleParameters (some p) d =
      some (p.basisfunctions.map (fun b => b.greville d.toNat)) := by
  simp only [getGrevilleParameters]
  rw [if_neg (show ¬ (d < 0 ∨ 2 < d) by omega)]

theorem scrLoop_none (p : ASMu3D) (g0 g1 g2 : List ℚ) :
    ∀ (bs : List Basisfunction) (ip i : ℕ), i < bs.length →
      (scrStepAssemble p g0 g1 g2 (bs.getD i dfltBasis) (ip + i)).isSome = true →
      (∀ AB, scrStepAssemble p g0 g1 g2 (bs.getD i dfltBasis) (ip + i) = some AB →
             p.denseSolve (scrNPol p) p.noFields AB.1 AB.2 = none) →
      scrLoop p g0 g1 g2 bs ip = none := by
  intro bs
  induction bs with
  | nil => intro ip i h; simp at h
  | cons b rest ih =>
    intro ip i hi hsome hfail
    cases i with
    | zero =>
      rw [scrLoop]
      cases hA : scrStepAssemble p g0 g1 g2 b ip with
      | none => rw [Option.none_bind]
      | some AB =>
        have hs := hfail AB (by simpa using hA)
        simp only [Option.some_bind]
        rw [hs, Option.none_bind]
    | succ n =>
      rw [scrLoop]
      cases hA : scrStepAssemble p g0 g1 g2 b ip with
      | none => rw [Option.none_bind]
      | some AB =>
        cases hS : p.denseSolve (scrNPol p) p.noFields AB.1 AB.2 with
        | none =>
          simp only [Option.some_bind]
          rw [hS, Option.none_bind]
        | some sol =>
          have hrec : scrLoop p g0 g1 g2 rest (ip + 1) = none := by
            refine ih (ip + 1) n (by simpa using hi) ?_ ?_
            · have hshift : (b :: rest).getD (n+1) dfltBasis = rest.getD n dfltBasis := rfl
              rw [← hshift]
              have harith : ip + 1 + n = ip + (n + 1) := by omega
              rw [harith]
              exact hsome
            · intro AB' hAB'
              refine hfail AB' ?_
              have hshift : (b :: rest).getD (n+1) dfltBasis = rest.getD n dfltBasis := rfl
              rw [hshift]
              have harith : ip + (n + 1) = ip + 1 + n := by omega
              rw [harith]
              exact hAB'
          simp only [Option.some_bind]
          rw [hS]
          simp only [Option.some_bind]
          rw [hrec, Option.map_none']

/-- Claim C6: a singular local SCR least-squares system (the dense solve
fails on the system assembled for some basis function) makes the whole
`scRecovery` projection return `nullptr`, and a singular global
interpolation system makes `regularInterpolation` return `nullptr`; no
partially-projected result is returned. -/
theorem claim_C6 :
    (∀ (p : ASMu3D) (i : ℕ), i < p.basisfunctions.length →
       (scrAssembleAt p i).isSome = true →
       (∀ AB, scrAssembleAt p i = some AB →
              p.denseSolve (scrNPol p) p.noFields AB.1 AB.2 = none) →
       scRecovery p = none) ∧
    (∀ (p : ASMu3D) (upar vpar wpar : List ℚ) (points : MatQ),
       p.sparseSolve p.nBasisFunctions (riA p upar vpar wpar) (riB p points) =
         none →
       regularInterpolation p upar vpar wpar points = none) := by
  constructor
  · intro p i hi hsome hfail
    rw [scRecovery]
    cases hg : (p.getCoordOk (scrNg p 0) && p.getCoordOk (scrNg p 1) &&
                p.getCoordOk (scrNg p 2)) with
    | false => rfl
    | true =>
      rw [if_pos rfl]
      rw [getGreville_eval p 0 (by norm_num) (by norm_num),
          getGreville_eval p 1 (by norm_num) (by norm_num),
          getGreville_eval p 2 (by norm_num) (by norm_num)]
      simp only [Option.some_bind, Int.toNat_zero, Int.toNat_one,
        show ((2:ℤ)).toNat = 2 from rfl]
      have hloop : scrLoop p
          (p.basisfunctions.map (fun b => b.greville 0))
          (p.basisfunctions.map (fun b => b.greville 1))
          (p.basisfunctions.map (fun b => b.greville 2))
          p.basisfunctions 0 = none := by
        refine scrLoop_none p _ _ _ p.basisfunctions 0 i hi ?_ ?_
        · simpa [scrAssembleAt] using hsome
        · intro AB hAB
          exact hfail AB (by simpa [scrAssembleAt] using hAB)
      rw [hloop, Option.none_bind]
  · intro p upar vpar wpar points hsolve
    rw [regularInterpolation]
    by_cases hr : p.rational = true
    · rw [if_pos hr]
    · rw [if_neg hr]
      by_cases hsz : upar.length = p.nBasisFunctions ∧
          vpar.length = p.nBasisFunctions ∧
          wpar.length = p.nBasisFunctions ∧ points.cols = p.nBasisFunctions
      · rw [if_neg (not_not_intro hsz), hsolve, Option.map_none']
      · rw [if_pos hsz]

/-- Patch with an always-failing dense solver (its single basis function
has an empty extended support, so the local assembly trivially succeeds)
used to witness the first half of claim C6. -/
def pC6 : ASMu3D :=
  { rational := false, order := fun _ => 2,
    basisfunctions := [⟨fun _ => 0, [], []⟩],
    elemSupport := fun _ => [], getCoordOk := fun _ => true,
    gaussPointParameters := fun _ _ _ => [],
    point := fun _ _ _ => (0, 0, 0),
    evalSolution := fun _ => some (fun _ _ => 0),
    derivativeOrder := 1, noFields := 1,
    denseSolve := fun _ _ _ _ => none,
    sparseSolve := fun _ _ _ => none,
    getElementContaining := fun _ _ _ => 0,
    computeBasis := fun _ _ _ _ => [1] }

theorem claim_C6_witness :
    scRecovery pC6 = none ∧
    regularInterpolation pC6 [0] [0] [0] ⟨1, 1, fun _ _ => 0⟩ = none :=
  ⟨claim_C6.1 pC6 0 (by norm_num [pC6]) rfl (fun AB _ => rfl),
   claim_C6.2 pC6 [0] [0] [0] ⟨1, 1, fun _ _ => 0⟩ rfl⟩

theorem scrLoop_setSupports (p : ASMu3D) (f : Basisfunction → List ℕ)
    (g0 g1 g2 : List ℚ) :
    ∀ (bs : List Basisfunction) (ip : ℕ),
      scrLoop (setSupports f p) g0 g1 g2
        (bs.map (fun b => { b with support := f b })) ip =
      scrLoop p g0 g1 g2 bs ip := by
  intro bs
  induction bs with
  | nil => intro ip; rfl
  | cons b rest ih =>
    intro ip
    show scrLoop (setSupports f p) g0 g1 g2
        ({ b with support := f b } ::
          rest.map (fun b => { b with support := f b })) ip = _
    rw [scrLoop, scrLoop]
    have h1 : scrStepAssemble (setSupports f p) g0 g1 g2
        { b with support := f b } ip = scrStepAssemble p g0 g1 g2 b ip := rfl
    rw [h1, ih (ip+1)]
    rfl

theorem regularInterpolation_setSupports (p : ASMu3D)
    (f : Basisfunction → List ℕ) (u v w : List ℚ) (M : MatQ) :
    regularInterpolation (setSupports f p) u v w M =
      regularInterpolation p u v w M := by
  have hn : (setSupports f p).nBasisFunctions = p.nBasisFunctions := by
    simp [setSupports, ASMu3D.nBasisFunctions]
  have hA : riA (setSupports f p) u v w = riA p u v w := by
    funext i j
    simp only [riA]
    rw [hn]
    rfl
  have hB : riB (setSupports f p) M = riB p M := by
    funext q
    simp only [riB]
    rw [hn]
  simp only [regularInterpolation]
  rw [hn, hA, hB]
  rfl

/-- Claim C3: the local least-squares system of `scRecovery` is assembled
over the extended support unconditionally — the code selects the extended
support for every basis function, and the whole projection is invariant
under arbitrary changes to the own-support lists of the basis
functions. -/
theorem claim_C3 (p : ASMu3D) (f : Basisfunction → List ℕ) :
    scRecovery (setSupports f p) = scRecovery p ∧
    ∀ b : Basisfunction, scrElementsForBasis b = b.extendedSupport := by
  refine ⟨?_, fun b => rfl⟩
  rw [scRecovery, scRecovery]
  have hguard : ((setSupports f p).getCoordOk (scrNg (setSupports f p) 0) &&
      (setSupports f p).getCoordOk (scrNg (setSupports f p) 1) &&
      (setSupports f p).getCoordOk (scrNg (setSupports f p) 2)) =
      (p.getCoordOk (scrNg p 0) && p.getCoordOk (scrNg p 1) &&
       p.getCoordOk (scrNg p 2)) := rfl
  rw [hguard]
  cases hg : (p.getCoordOk (scrNg p 0) && p.getCoordOk (scrNg p 1) &&
      p.getCoordOk (scrNg p 2)) with
  | false => rfl
  | true =>
    rw [if_pos rfl, if_pos rfl,
        getGreville_eval (setSupports f p) 0 (by norm_num) (by norm_num),
        getGreville_eval (setSupports f p) 1 (by norm_num) (by norm_num),
        getGreville_eval (setSupports f p) 2 (by norm_num) (by norm_num),
        getGreville_eval p 0 (by norm_num) (by norm_num),
        getGreville_eval p 1 (by norm_num) (by norm_num),
        getGreville_eval p 2 (by norm_num) (by norm_num)]
    simp only [Option.some_bind, Int.toNat_zero, Int.toNat_one,
      show ((2:ℤ)).toNat = 2 from rfl]
    have hgrev : ∀ d : ℕ,
        (setSupports f p).basisfunctions.map (fun b => b.greville d) =
          p.basisfunctions.map (fun b => b.greville d) := by
      intro d
      show (p.basisfunctions.map (fun b => { b with support := f b })).map
          (fun b => b.greville d) = _
      rw [List.map_map]
      rfl
    rw [hgrev 0, hgrev 1, hgrev 2]
    have hbf : (setSupports f p).basisfunctions =
        p.basisfunctions.map (fun b => { b with support := f b }) := rfl
    rw [hbf, scrLoop_setSupports p f _ _ _ p.basisfunctions 0]
    simp only [regularInterpolation_setSupports,
      show (setSupports f p).noFields = p.noFields from rfl]

end IFEM
